import Mathlib

/-!
Verification of the MicroLink correlation-graph builder and anomaly scanner.

Shallow embedding of `src/scripts/build_graph.py` (`_build_nx`) and
`src/scripts/detect_anomalies.py` (`_edge_lag`, `scan`).

Modelling conventions:
* a pandas DataFrame row becomes an `Event` record (timestamps are integers,
  standing for seconds since some epoch; `pd.to_datetime` round-trips are
  identity here, and timestamp differences land in the rationals that model
  the floats the scanner aggregates — no claim exercises sub-second input);
* the networkx `MultiDiGraph` becomes a `Graph`: a node list (id with its
  `type` attribute, later `add_node` calls overwrite the attribute in place,
  as networkx does) and an edge list in insertion order (every edge built by
  the code carries a `rel` attribute, so `rel` is a field; `lag` is present
  only where the code sets it, so it is a four-way attribute value covering
  a missing key, Python `None`, a number, and a string);
* the Python dict `last_by_id` becomes an association list with
  last-write-wins lookup; the code keys it both by the correlation key
  itself and by the correlation key with the literal suffix `"@prev"`;
* `re.search` with the two module regexes `PUB_RE` and `CON_RE` reduces to
  membership of a lowercased word token in a fixed set, because each
  alternative of those regexes is a `\b`-delimited run of word characters;
* display-only node attributes (`svc`, `ts`, `raw`) and the edge `ts`
  string are carried only where a claim reads them (`ts` as a rational);
  no claim reads `svc` or `raw`.
-/

namespace ML

/-- A normalized event row, as consumed by `_build_nx` in
`src/scripts/build_graph.py`: the columns `timestamp`, `service.name`,
`message`, `corr_key`, `event_point` produced by `normalize_events.py`. -/
structure Event where
  timestamp : ℤ
  service : String
  message : String
  corr_key : String
  event_point : String
deriving DecidableEq, Repr

/-- The closed set of edge relation tags used by the builder. -/
inductive Rel where
  | PROCESSED
  | PUBLISHED
  | DELIVERED
  | PRECEDES
deriving DecidableEq, Repr

/-- Node `type` attribute values set by the builder. -/
inductive NodeType where
  | DataInstance
  | EventPoint
  | Queue
deriving DecidableEq, Repr

/-- The value of an edge's `lag` attribute as the scanner can observe it:
the key can be missing altogether (every non-DELIVERED edge), present with
Python `None`, a number, or a string. -/
inductive LagAttr where
  | absent
  | null
  | num (q : ℚ)
  | str (s : String)
deriving DecidableEq, Repr

/-- One directed multigraph edge with its attribute dict: `rel` is always
present (the builder sets it on every edge), `lag` as a `LagAttr`, and the
`ts` attribute when set. -/
structure Edge where
  src : String
  tgt : String
  rel : Rel
  lag : LagAttr
  ts : Option ℤ
deriving DecidableEq, Repr

/-- The graph snapshot: nodes as (id, type) in insertion order with
networkx overwrite-on-re-add semantics, edges in insertion order. -/
structure Graph where
  nodes : List (String × NodeType)
  edges : List Edge
deriving DecidableEq, Repr

/-- The demo queue constant `QUEUE_NAME = "order.events"`. -/
def QUEUE_NAME : String := "order.events"

/-- A word character for the regex `\b` boundary: ASCII letter, digit or
underscore (the messages under test are ASCII). -/
def isWordChar (c : Char) : Bool := c.isAlpha || c.isDigit || c = '_'

/-- Splits a lowercased character stream into its maximal word-character
runs, accumulating the current run in reverse. -/
def tokenize : List Char → List Char → List String
  | [], cur => if cur.isEmpty then [] else [String.mk cur.reverse]
  | c :: rest, cur =>
    if isWordChar c then tokenize rest (c :: cur)
    else if cur.isEmpty then tokenize rest []
    else String.mk cur.reverse :: tokenize rest []

/-- Maximal word tokens of a message, lowercased (the regexes are compiled
with `re.I`; ASCII case folding). A `\b`-delimited all-word-character
alternative of a regex matches the message iff it equals one of these
tokens. -/
def wordTokens (s : String) : List String :=
  tokenize (s.toList.map Char.toLower) []

/-- PUB_RE = `\bpublish(ed)?\b` (case-insensitive): some token is
`publish` or `published`. -/
def pubMatch (msg : String) : Bool :=
  (wordTokens msg).any (fun t => t = "publish" || t = "published")

/-- CON_RE = `\bconsum(e|ed|ing)\b|\bprocess(ing)?\b` (case-insensitive):
some token is one of `consume`, `consumed`, `consuming`, `process`,
`processing`. -/
def conMatch (msg : String) : Bool :=
  (wordTokens msg).any (fun t =>
    t = "consume" || t = "consumed" || t = "consuming" ||
    t = "process" || t = "processing")

/-- Dict write, last-write-wins (`last_by_id[k] = v`). -/
def updMap (m : List (String × String)) (k v : String) : List (String × String) :=
  (k, v) :: m

/-- Dict read (`last_by_id.get(k)`): most recent write, `None` if never
written. -/
def getMap (m : List (String × String)) (k : String) : Option String :=
  (m.find? (fun p => p.1 = k)).map (fun p => p.2)

/-- networkx `G.add_node(id, type=t)`: re-adding an existing node updates
its attributes in place (insertion position kept); a new id is appended. -/
def addNode (ns : List (String × NodeType)) (id : String) (t : NodeType) :
    List (String × NodeType) :=
  if ns.any (fun p => p.1 = id) then
    ns.map (fun p => if p.1 = id then (id, t) else p)
  else
    ns ++ [(id, t)]

/-- Node `type` attribute lookup in a node list. -/
def nodeLookup (ns : List (String × NodeType)) (n : String) : Option NodeType :=
  (ns.find? (fun p => p.1 = n)).map (fun p => p.2)

/-- Node `type` attribute lookup (`G.nodes[n].get("type")`). -/
def nodeTypeOf (G : Graph) (n : String) : Option NodeType :=
  nodeLookup G.nodes n

/-- Running state of the `_build_nx` fold: the graph under construction
plus the single dict `last_by_id` (which holds both the per-key hand-off
location and, under `key ++ "@prev"`, the per-key previous EventPoint). -/
structure BState where
  nodes : List (String × NodeType)
  edges : List Edge
  last_by_id : List (String × String)
deriving DecidableEq, Repr

/-- The PROCESSED edge added for a row. -/
def procEdge (row : Event) : Edge :=
  ⟨row.event_point, row.corr_key, Rel.PROCESSED, LagAttr.absent, some row.timestamp⟩

/-- One iteration of the `for _, row in df.iterrows()` loop body of
`_build_nx`. Mirrors the source line by line: add the DataInstance and
EventPoint nodes, the PROCESSED edge, then the keyword-classified hop
edge (`PUB_RE` checked first), then the PRECEDES bookkeeping. The lag
expression reproduces the source literally:
`(ts - pd.to_datetime(row["timestamp"])).total_seconds()` subtracts the
row's own timestamp from itself. -/
def buildStep (st : BState) (row : Event) : BState :=
  let eid := row.event_point
  let did := row.corr_key
  let ts := row.timestamp
  let ns0 := addNode st.nodes did NodeType.DataInstance
  let ns1 := addNode ns0 eid NodeType.EventPoint
  let es1 := st.edges ++ [procEdge row]
  let after :=
    if pubMatch row.message then
      (addNode ns1 QUEUE_NAME NodeType.Queue,
       es1 ++ [⟨eid, QUEUE_NAME, Rel.PUBLISHED, LagAttr.absent, some ts⟩],
       updMap st.last_by_id did QUEUE_NAME)
    else if conMatch row.message then
      let lag : LagAttr :=
        if getMap st.last_by_id did = some QUEUE_NAME then
          LagAttr.num ((ts - ts : ℤ) : ℚ)
        else
          LagAttr.null
      (addNode ns1 QUEUE_NAME NodeType.Queue,
       es1 ++ [⟨QUEUE_NAME, eid, Rel.DELIVERED, lag, some ts⟩],
       st.last_by_id)
    else
      (ns1, es1, st.last_by_id)
  let ns2 := after.1
  let es2 := after.2.1
  let lb2 := after.2.2
  let es3 :=
    match getMap lb2 (did ++ "@prev") with
    | some p => if p ≠ "" && p ≠ eid then
        es2 ++ [⟨p, eid, Rel.PRECEDES, LagAttr.absent, none⟩]
      else es2
    | none => es2
  ⟨ns2, es3, updMap lb2 (did ++ "@prev") eid⟩

/-- The fold over an already-ordered row sequence. -/
def foldBuild (l : List Event) (st : BState) : BState :=
  l.foldl buildStep st

/-- Decomposition helper: the hop edge (PUBLISHED or DELIVERED) one loop
iteration appends after its PROCESSED edge, as a function of the incoming
state. -/
def hopEdges (st : BState) (row : Event) : List Edge :=
  if pubMatch row.message then
    [⟨row.event_point, QUEUE_NAME, Rel.PUBLISHED, LagAttr.absent, some row.timestamp⟩]
  else if conMatch row.message then
    [⟨QUEUE_NAME, row.event_point, Rel.DELIVERED,
      if getMap st.last_by_id row.corr_key = some QUEUE_NAME then
        LagAttr.num ((row.timestamp - row.timestamp : ℤ) : ℚ)
      else LagAttr.null,
      some row.timestamp⟩]
  else []

/-- Decomposition helper: the dict state right after the hop handling of
one loop iteration (a publish records the Queue hand-off). -/
def lb2Of (st : BState) (row : Event) : List (String × String) :=
  if pubMatch row.message then updMap st.last_by_id row.corr_key QUEUE_NAME
  else st.last_by_id

/-- Decomposition helper: the PRECEDES edge one loop iteration appends
last, as a function of the incoming state. -/
def precEdges (st : BState) (row : Event) : List Edge :=
  match getMap (lb2Of st row) (row.corr_key ++ "@prev") with
  | some p =>
    if p ≠ "" && p ≠ row.event_point then
      [⟨p, row.event_point, Rel.PRECEDES, LagAttr.absent, none⟩]
    else []
  | none => []

/-- Timestamp comparison used by `df.sort_values("timestamp")`. -/
def tsLe (a b : Event) : Prop := a.timestamp ≤ b.timestamp

instance : DecidableRel tsLe :=
  fun a b => inferInstanceAs (Decidable (a.timestamp ≤ b.timestamp))

/-- The whole of `_build_nx`: `df = df.sort_values("timestamp")` sorts
ascending by timestamp (modelled with a stable insertion sort; the tie
order among equal timestamps of the pandas default sort kind is
unspecified, and no claim depends on it), then the row loop folds from
the empty graph and empty dict. -/
def buildGraph (evs : List Event) : Graph :=
  let st := foldBuild (List.insertionSort tsLe evs) ⟨[], [], []⟩
  ⟨st.nodes, st.edges⟩

/-- The fold without the sort, following the spec's words (`GraphBuilder
... does not re-sort them`); used to compare the spec's described builder
with the source's `buildGraph`, which does sort. -/
def buildNoSort (evs : List Event) : Graph :=
  let st := foldBuild evs ⟨[], [], []⟩
  ⟨st.nodes, st.edges⟩

/-- Digits-only numeral value; `none` on a non-digit or the empty list. -/
def decDigits (cs : List Char) : Option ℕ :=
  if cs.isEmpty then none
  else
    cs.foldl
      (fun acc c =>
        match acc with
        | none => none
        | some n => if c.isDigit then some (n * 10 + (c.toNat - 48)) else none)
      (some 0)

/-- Python `float(s)` on the plain decimal literals the pipeline can put in
a `lag` attribute: optional sign, then digits with at most one decimal
point and at least one digit; anything else raises `ValueError`, modelled
as `none`. (Exponents, `inf`, `nan` and surrounding whitespace are not
exercised by any claim.) -/
def parseFloat (s : String) : Option ℚ :=
  let cs := s.toList
  let signed : ℚ × List Char :=
    match cs with
    | '-' :: rest => (-1, rest)
    | '+' :: rest => (1, rest)
    | _ => (1, cs)
  match List.splitOn '.' signed.2 with
  | [w] => (decDigits w).map (fun n => signed.1 * n)
  | [w, f] =>
    if w.isEmpty && f.isEmpty then none
    else
      let wv : Option ℕ := if w.isEmpty then some 0 else decDigits w
      let fv : Option ℕ := if f.isEmpty then some 0 else decDigits f
      match wv, fv with
      | some a, some b => some (signed.1 * ((a : ℚ) + (b : ℚ) / (10 : ℚ) ^ f.length))
      | _, _ => none
  | _ => none

/-- Python truthiness of the value `d.get("lag")` (the scanner's guard
`and d.get("lag")`): a missing key gives `None` (falsy), `None` is falsy,
a number is truthy iff nonzero, a string iff nonempty. -/
def lagTruthy : LagAttr → Bool
  | LagAttr.absent => false
  | LagAttr.null => false
  | LagAttr.num q => q ≠ 0
  | LagAttr.str s => s ≠ ""

/-- The helper `_edge_lag` of `src/scripts/detect_anomalies.py`:
`float(e_data.get("lag", 0))` with `TypeError`/`ValueError` mapped to `0`.
A missing key defaults to `0`; `float(None)` raises `TypeError`; a string
goes through `float(s)`, `ValueError` giving `0`. -/
def edgeLag : LagAttr → ℚ
  | LagAttr.absent => 0
  | LagAttr.null => 0
  | LagAttr.num q => q
  | LagAttr.str s => (parseFloat s).getD 0

/-- Append a lag sample under a group key, preserving first-insertion
order of keys (`defaultdict(list)`: `lags[key].append(v)`). -/
def addLag (m : List (String × List ℚ)) (k : String) (v : ℚ) :
    List (String × List ℚ) :=
  if m.any (fun p => p.1 = k) then
    m.map (fun p => if p.1 = k then (p.1, p.2 ++ [v]) else p)
  else
    m ++ [(k, [v])]

/-- One step of the scanner's first pass: an edge with `rel ==
"DELIVERED"` whose `lag` attribute is truthy appends `_edge_lag` of it to
the group keyed by the f-string `u -> v` (written `u ++ "->" ++ v`);
every other edge leaves the groups unchanged. -/
def lagStep (m : List (String × List ℚ)) (e : Edge) : List (String × List ℚ) :=
  if e.rel = Rel.DELIVERED && lagTruthy e.lag then
    addLag m (e.src ++ "->" ++ e.tgt) (edgeLag e.lag)
  else m

/-- The scanner's first pass over all edges, starting from the empty
group dict. -/
def lagsOf (G : Graph) : List (String × List ℚ) :=
  G.edges.foldl lagStep []

/-- statistics.median over rationals: sort ascending; middle element for
odd length, mean of the two middles for even length. -/
def median (l : List ℚ) : ℚ :=
  let s := List.insertionSort (fun a b : ℚ => a ≤ b) l
  let n := s.length
  if n % 2 = 1 then s.getD (n / 2) 0
  else (s.getD (n / 2 - 1) 0 + s.getD (n / 2) 0) / 2

/-- One comparison step of Python `max(..., key=median)`: a later element
replaces the current best only when its key is strictly greater. -/
def betterGroup (best y : String × List ℚ) : String × List ℚ :=
  if median best.2 < median y.2 then y else best

/-- Python `max(items, key=median of samples)`: first maximal element in
iteration order. `none` on the empty dict (the code guards with
`if lags:`). -/
def maxByMedian : List (String × List ℚ) → Option (String × List ℚ)
  | [] => none
  | x :: xs => some (xs.foldl betterGroup x)

/-- The body of the scanner's lost-message loop for one DataInstance node
`d`: `published` holds iff some edge into `d` comes from an
EventPoint-typed node that has an outgoing PUBLISHED edge to a
Queue-typed node; `consumed` iff some edge into `d` comes from an
EventPoint-typed node with an incoming DELIVERED edge from a Queue-typed
node; lost iff published and not consumed. (The loop inspects every edge
`(u, v)` with `v == d` whatever its relation, and only edges into `d`.) -/
def isLost (G : Graph) (d : String) : Bool :=
  let published := G.edges.any (fun e =>
    e.tgt = d && nodeTypeOf G e.src = some NodeType.EventPoint &&
      G.edges.any (fun o =>
        o.src = e.src && nodeTypeOf G o.tgt = some NodeType.Queue &&
          o.rel = Rel.PUBLISHED))
  let consumed := G.edges.any (fun e =>
    e.tgt = d && nodeTypeOf G e.src = some NodeType.EventPoint &&
      G.edges.any (fun i =>
        i.tgt = e.src && nodeTypeOf G i.src = some NodeType.Queue &&
          i.rel = Rel.DELIVERED))
  published && !consumed

/-- The scanner's `lost` list: DataInstance-typed nodes, in node insertion
order, that `isLost` flags. -/
def lostList (G : Graph) : List String :=
  ((G.nodes.filter (fun p => p.2 = NodeType.DataInstance)).map (fun p => p.1)).filter
    (isLost G)

/-- The per-edge slow-hop candidate: a DELIVERED edge with truthy `lag`
whose `_edge_lag` value exceeds the 1.0-second threshold yields the entry
`(u, v, lag)`; every other edge yields nothing. -/
def slowHopEntry (e : Edge) : Option (String × String × ℚ) :=
  if e.rel = Rel.DELIVERED && lagTruthy e.lag then
    let lag := edgeLag e.lag
    if 1 < lag then some (e.src, e.tgt, lag) else none
  else none

/-- Slow-hop lag ordering for `slow_hops.sort(key=..., reverse=True)`:
a stable descending sort by the lag component. -/
def hopGe (a b : String × String × ℚ) : Prop := b.2.2 ≤ a.2.2

instance : DecidableRel hopGe :=
  fun a b => inferInstanceAs (Decidable (b.2.2 ≤ a.2.2))

instance : IsTotal Event tsLe :=
  ⟨fun a b => le_total a.timestamp b.timestamp⟩

instance : IsTrans Event tsLe :=
  ⟨fun _ _ _ h1 h2 => le_trans h1 h2⟩

instance : IsTotal (String × String × ℚ) hopGe :=
  ⟨fun a b => le_total b.2.2 a.2.2⟩

instance : IsTrans (String × String × ℚ) hopGe :=
  ⟨fun _ _ _ h1 h2 => le_trans h2 h1⟩

/-- The scanner's slow-hop list: candidates in edge order, then the
stable descending sort by lag. -/
def slowHopsOf (G : Graph) : List (String × String × ℚ) :=
  List.insertionSort hopGe (G.edges.filterMap slowHopEntry)

/-- The structured content of the scanner's report (`scan` renders it to
markdown; the three findings are computed exactly as in the source). -/
structure Findings where
  bottleneck : Option (String × List ℚ)
  lost : List String
  slowHops : List (String × String × ℚ)
deriving DecidableEq, Repr

/-- The `scan` function of `src/scripts/detect_anomalies.py`, as the
findings it reports: the bottleneck group (first group of maximal median
lag, if any), the lost DataInstances, and the sorted slow hops. -/
def scan (G : Graph) : Findings :=
  ⟨maxByMedian (lagsOf G), lostList G, slowHopsOf G⟩

/-! Concrete instances used to evaluate the definitions. -/

/-- Scenario A, first event: t=0, message `processing order`. -/
def evA1 : Event := ⟨0, "svcA", "processing order", "orderId=1", "svcA_processEvent"⟩

/-- Scenario A, second event: t=1, message `publish to shipping`. -/
def evA2 : Event := ⟨1, "svcB", "publish to shipping", "orderId=1", "svcB_publishEvent"⟩

/-- Scenario A, third event: t=5, message `consume shipping ack`. -/
def evA3 : Event := ⟨5, "svcC", "consume shipping ack", "orderId=1", "svcC_consumeEvent"⟩

/-- A graph with a single DELIVERED edge whose `lag` is the number `0`
(present and non-null, but falsy in Python). -/
def gZeroLag : Graph :=
  ⟨[("q", NodeType.Queue), ("e", NodeType.EventPoint)],
   [⟨"q", "e", Rel.DELIVERED, LagAttr.num 0, none⟩]⟩

/-- A graph with a single DELIVERED edge of lag `2`. -/
def gLagTwo : Graph :=
  ⟨[("q", NodeType.Queue), ("e", NodeType.EventPoint)],
   [⟨"q", "e", Rel.DELIVERED, LagAttr.num 2, none⟩]⟩

/-- A graph where the DataInstance `d` has no PROCESSED in-edge at all:
the EventPoint `e1` reaches `d` only through a PRECEDES edge yet has
published, and the EventPoint `e2` is attached to `d` only by an edge
going out of `d` and has an incoming DELIVERED edge from the Queue. -/
def gNoProc : Graph :=
  ⟨[("d", NodeType.DataInstance), ("e1", NodeType.EventPoint),
    ("e2", NodeType.EventPoint), ("q", NodeType.Queue)],
   [⟨"e1", "d", Rel.PRECEDES, LagAttr.absent, none⟩,
    ⟨"e1", "q", Rel.PUBLISHED, LagAttr.absent, none⟩,
    ⟨"d", "e2", Rel.PRECEDES, LagAttr.absent, none⟩,
    ⟨"q", "e2", Rel.DELIVERED, LagAttr.null, none⟩]⟩

/-- A graph where the DataInstance `d` was processed and published but
never delivered: the amended lost-message characterisation flags it. -/
def gLostOne : Graph :=
  ⟨[("d", NodeType.DataInstance), ("e", NodeType.EventPoint), ("q", NodeType.Queue)],
   [⟨"e", "d", Rel.PROCESSED, LagAttr.absent, some 0⟩,
    ⟨"e", "q", Rel.PUBLISHED, LagAttr.absent, some 0⟩]⟩

/-- A graph with one DELIVERED edge whose `lag` attribute is the
non-numeric string `oops`. -/
def gBadLag : Graph :=
  ⟨[("q", NodeType.Queue), ("e", NodeType.EventPoint)],
   [⟨"q", "e", Rel.DELIVERED, LagAttr.str "oops", none⟩]⟩

/-- A publish event for the correlation key `x@prev`. -/
def evP1 : Event := ⟨0, "s1", "published item", "x@prev", "E1"⟩

/-- An unclassified event for the correlation key `x`: its timeline
bookkeeping writes the dict key `x@prev`. -/
def evP2 : Event := ⟨1, "s2", "hello there", "x", "E2"⟩

/-- A consume event for the correlation key `x@prev`, after the publish
for that key with no intervening publish or consume for it. -/
def evP3 : Event := ⟨2, "s3", "consume item", "x@prev", "E3"⟩

/-- A publish event for the key `k1` (no `@prev` collision). -/
def evQ1 : Event := ⟨0, "s", "publish it", "k1", "E1"⟩

/-- A consume event for the key `k1`, after `evQ1`. -/
def evQ2 : Event := ⟨1, "s", "consume it", "k1", "E2"⟩

/-! Theorems. General lemmas about the embedded functions come first,
then one theorem per claim (with its witness or counterexample). -/

/-- Sorting the input by timestamp is idempotent: the builder's internal
sort of an already-sorted list is the identity. -/
theorem insertionSort_tsLe_idem (evs : List Event) :
    List.insertionSort tsLe (List.insertionSort tsLe evs)
      = List.insertionSort tsLe evs :=
  List.Sorted.insertionSort_eq (List.sorted_insertionSort tsLe evs)

/-- Membership in the scanner's slow-hop list is membership in the
per-edge candidates. -/
theorem mem_slowHopsOf (G : Graph) (h : String × String × ℚ) :
    h ∈ slowHopsOf G ↔ ∃ e ∈ G.edges, slowHopEntry e = some h := by
  rw [slowHopsOf, (List.perm_insertionSort hopGe _).mem_iff, List.mem_filterMap]

/-- Characterisation of the slow-hop candidate of one edge. -/
theorem slowHopEntry_eq_some (e : Edge) (y : String × String × ℚ) :
    slowHopEntry e = some y ↔
      e.rel = Rel.DELIVERED ∧ lagTruthy e.lag = true ∧ 1 < edgeLag e.lag ∧
        y = (e.src, e.tgt, edgeLag e.lag) := by
  unfold slowHopEntry
  by_cases h1 : e.rel = Rel.DELIVERED && lagTruthy e.lag
  · rw [Bool.and_eq_true, decide_eq_true_eq] at h1
    by_cases h2 : (1 : ℚ) < edgeLag e.lag <;>
      simp [h1.1, h1.2, h2, eq_comm]
  · rw [Bool.and_eq_true, decide_eq_true_eq, not_and] at h1
    by_cases hrel : e.rel = Rel.DELIVERED
    · simp [hrel, h1 hrel]
    · simp [hrel]

/-- C1. The claim reads the spec: a Consume whose key's last hand-off is
the Queue gets a DELIVERED edge whose lag is the elapsed time since the
matching publish. The code instead subtracts the consume's own timestamp
from itself: for a publish at t=1 and a consume at t=5 on the same key,
the one DELIVERED edge carries lag 0, not the elapsed 4 seconds. -/
theorem C1_lag_is_literal_zero :
    ((buildGraph [evA2, evA3]).edges.filter
        (fun e => e.rel = Rel.DELIVERED)).map (fun e => e.lag)
      = [LagAttr.num 0] ∧ evA3.timestamp - evA2.timestamp = 4 ∧ (0 : ℚ) ≠ 4 := by
  decide

/-- C5 counterexample. On Scenario A the built graph has two DELIVERED
edges, not one: the t=0 message `processing order` matches `CON_RE`
(alternative `\bprocess(ing)?\b`), so the first event is Consume-classified
and also receives a DELIVERED edge (with null lag). -/
theorem C5_two_delivered_edges :
    ((buildGraph [evA1, evA2, evA3]).edges.filter
        (fun e => e.rel = Rel.DELIVERED)).length = 2 := by
  decide

/-- C5 amended. Scenario A yields 3 EventPoints, 1 DataInstance, 1 Queue,
exactly one PUBLISHED edge and exactly two DELIVERED edges (the t=0
`processing order` event is Consume-classified and adds a null-lag
DELIVERED edge), and the scanner's lost-message list is empty. -/
theorem C5_scenario_counts :
    ((buildGraph [evA1, evA2, evA3]).nodes.filter
        (fun p => p.2 = NodeType.EventPoint)).length = 3 ∧
    ((buildGraph [evA1, evA2, evA3]).nodes.filter
        (fun p => p.2 = NodeType.DataInstance)).length = 1 ∧
    ((buildGraph [evA1, evA2, evA3]).nodes.filter
        (fun p => p.2 = NodeType.Queue)).length = 1 ∧
    ((buildGraph [evA1, evA2, evA3]).edges.filter
        (fun e => e.rel = Rel.PUBLISHED)).length = 1 ∧
    ((buildGraph [evA1, evA2, evA3]).edges.filter
        (fun e => e.rel = Rel.DELIVERED)).length = 2 ∧
    (scan (buildGraph [evA1, evA2, evA3])).lost = [] := by
  decide

/-- C8. An empty event sequence builds the empty graph, and scanning the
empty graph yields a findings report with no bottleneck, no lost
messages and no slow hops. -/
theorem C8_empty_input :
    buildGraph [] = ⟨[], []⟩ ∧ scan ⟨[], []⟩ = ⟨none, [], []⟩ := by
  decide

/-- C2 counterexample. The claimed equivalence (bottleneck reported as
none exactly when no DELIVERED edge carries a non-null lag) fails on a
graph whose only DELIVERED edge has the present, non-null lag 0: Python
truthiness of `d.get("lag")` drops that edge, so the scanner reports no
bottleneck. -/
theorem C2_zero_lag_dropped :
    (scan gZeroLag).bottleneck = none ∧
    ∃ e ∈ gZeroLag.edges,
      e.rel = Rel.DELIVERED ∧ e.lag ≠ LagAttr.null ∧ e.lag ≠ LagAttr.absent := by
  decide

/-- C3 counterexample. On this graph the scanner lists `d` as lost even
though no EventPoint has a PROCESSED edge into `d` (the publisher reaches
`d` only via a PRECEDES edge) and an EventPoint touching `d` (via an edge
going out of `d`) does have an incoming DELIVERED edge from the Queue —
the claim as stated says `d` must not be listed. -/
theorem C3_no_processed_still_lost :
    (scan gNoProc).lost = ["d"] ∧
    (∀ e ∈ gNoProc.edges, ¬(e.rel = Rel.PROCESSED ∧ e.tgt = "d")) ∧
    (∃ e ∈ gNoProc.edges, e.src = "d" ∧ e.tgt = "e2") ∧
    (∃ e ∈ gNoProc.edges,
      e.rel = Rel.DELIVERED ∧ e.src = "q" ∧ e.tgt = "e2") := by
  decide

/-- C6 counterexample. For the input presented as (consume at t=5,
publish at t=1), folding in the presented order gives the DELIVERED edge
a null lag (no publish seen yet), but the builder sorts by timestamp
first and produces a non-null lag — so it does not process events in the
presented order. -/
theorem C6_builder_resorts :
    ((buildGraph [evA3, evA2]).edges.filter
        (fun e => e.rel = Rel.DELIVERED)).map (fun e => e.lag) = [LagAttr.num 0] ∧
    ((buildNoSort [evA3, evA2]).edges.filter
        (fun e => e.rel = Rel.DELIVERED)).map (fun e => e.lag) = [LagAttr.null] ∧
    buildGraph [evA3, evA2] ≠ buildNoSort [evA3, evA2] := by
  decide

/-- C10 counterexample. The builder keeps the per-key hand-off state and
the per-key timeline state in one dict, the latter under `key ++ "@prev"`.
After a publish for the key `x@prev`, an event for the key `x` overwrites
the dict entry `x@prev` with its EventPoint id, so the later consume for
`x@prev` — with no new publish in between — gets a DELIVERED edge whose
lag is null, contradicting the claim. -/
theorem C10_prev_key_collision :
    ((buildGraph [evP1, evP2, evP3]).edges.filter
        (fun e => e.rel = Rel.DELIVERED)).map (fun e => e.lag) = [LagAttr.null] ∧
    pubMatch evP1.message = true ∧ evP1.corr_key = "x@prev" ∧
    conMatch evP3.message = true ∧ pubMatch evP3.message = false ∧
    evP3.corr_key = "x@prev" := by
  decide

/-- The dict after one loop iteration: the hop handling (a publish
records the Queue under the correlation key), then the unconditional
timeline write under the key suffixed `"@prev"`. -/
theorem buildStep_last (st : BState) (ev : Event) :
    (buildStep st ev).last_by_id =
      updMap (lb2Of st ev) (ev.corr_key ++ "@prev") ev.event_point := by
  unfold buildStep lb2Of
  by_cases h1 : pubMatch ev.message <;> by_cases h2 : conMatch ev.message <;>
    simp [h1, h2]

/-- The node list after one loop iteration: DataInstance, then
EventPoint, then (on a publish or consume) the Queue node. -/
theorem buildStep_nodes (st : BState) (ev : Event) :
    (buildStep st ev).nodes =
      if pubMatch ev.message || conMatch ev.message then
        addNode (addNode (addNode st.nodes ev.corr_key NodeType.DataInstance)
          ev.event_point NodeType.EventPoint) QUEUE_NAME NodeType.Queue
      else
        addNode (addNode st.nodes ev.corr_key NodeType.DataInstance)
          ev.event_point NodeType.EventPoint := by
  unfold buildStep
  by_cases h1 : pubMatch ev.message <;> by_cases h2 : conMatch ev.message <;>
    simp [h1, h2]

/-- The edge list after one loop iteration: the PROCESSED edge, the hop
edge if any, then the PRECEDES edge if any. -/
theorem buildStep_edges (st : BState) (ev : Event) :
    (buildStep st ev).edges
      = st.edges ++ procEdge ev :: (hopEdges st ev ++ precEdges st ev) := by
  simp only [buildStep, hopEdges, precEdges, lb2Of]
  by_cases h1 : pubMatch ev.message
  · simp only [h1, if_true]
    cases hgm : getMap (updMap st.last_by_id ev.corr_key QUEUE_NAME)
        (ev.corr_key ++ "@prev") with
    | none => simp [List.append_assoc]
    | some p =>
      by_cases hp : ¬p = "" ∧ ¬p = ev.event_point
      · simp [hp.1, hp.2, List.append_assoc]
      · simp [hp, List.append_assoc]
  · by_cases h2 : conMatch ev.message
    · simp only [h1, h2, if_true, if_false, Bool.false_eq_true]
      cases hgm : getMap st.last_by_id (ev.corr_key ++ "@prev") with
      | none => simp [List.append_assoc]
      | some p =>
        by_cases hp : ¬p = "" ∧ ¬p = ev.event_point
        · simp [hp.1, hp.2, List.append_assoc]
        · simp [hp, List.append_assoc]
    · simp only [h1, h2, if_true, if_false, Bool.false_eq_true]
      cases hgm : getMap st.last_by_id (ev.corr_key ++ "@prev") with
      | none => simp [List.append_assoc]
      | some p =>
        by_cases hp : ¬p = "" ∧ ¬p = ev.event_point
        · simp [hp.1, hp.2, List.append_assoc]
        · simp [hp, List.append_assoc]

/-- No hop edge is a PROCESSED edge. -/
theorem hopEdges_not_processed (st : BState) (ev : Event) :
    ∀ e ∈ hopEdges st ev, ¬(e.rel = Rel.PROCESSED) := by
  intro e he
  unfold hopEdges at he
  by_cases h1 : pubMatch ev.message <;> by_cases h2 : conMatch ev.message <;>
    simp only [h1, h2, if_true, if_false, Bool.false_eq_true] at he <;>
    simp only [List.mem_singleton, List.not_mem_nil] at he <;>
    first
      | exact absurd he (by trivial)
      | (subst he; simp)

/-- No PRECEDES bookkeeping edge is a PROCESSED edge. -/
theorem precEdges_not_processed (st : BState) (ev : Event) :
    ∀ e ∈ precEdges st ev, ¬(e.rel = Rel.PROCESSED) := by
  intro e he
  unfold precEdges at he
  cases hgm : getMap (lb2Of st ev) (ev.corr_key ++ "@prev") with
  | none =>
    rw [hgm] at he
    simp at he
  | some p =>
    rw [hgm] at he
    by_cases hp : ¬p = "" ∧ ¬p = ev.event_point
    · simp only [hp.1, hp.2] at he
      simp at he
      rw [he.2]
      simp
    · simp [hp] at he

/-- Lookup in a node list after the in-place attribute update of
`addNode`'s overwrite branch. -/
theorem find?_map_upd (ns : List (String × NodeType)) (id : String)
    (t : NodeType) (n : String) :
    (ns.map (fun p => if p.1 = id then (id, t) else p)).find? (fun p => p.1 = n)
      = if n = id then
          (if ns.any (fun p => p.1 = id) then some (id, t) else none)
        else ns.find? (fun p => p.1 = n) := by
  induction ns with
  | nil => by_cases h : n = id <;> simp [h]
  | cons q qs ih =>
    by_cases hq : q.1 = id
    · by_cases hn : n = id
      · subst hn
        simp [hq, List.find?_cons, List.any_cons]
      · simp only [List.map_cons, if_pos hq, List.find?_cons]
        rw [if_neg hn] at ih ⊢
        have hid : (decide ((id, t).1 = n)) = false := by
          simp
          intro hc
          exact hn hc.symm
        rw [hid, ih]
        have hqn : (decide (q.1 = n)) = false := by
          simp
          intro hc
          exact hn (hc ▸ hq ▸ rfl)
        rw [hqn]
    · by_cases hqn : q.1 = n
      · by_cases hn : n = id
        · exact absurd (hqn.trans hn) hq
        · simp [hq, hqn, hn, List.find?_cons]
      · simp only [List.map_cons, if_neg hq, List.find?_cons,
          show (decide (q.1 = n)) = false by simp [hqn]]
        rw [ih]
        by_cases hn : n = id
        · have hqid : (decide (q.1 = id)) = false := by simp [hq]
          simp only [if_pos hn, List.any_cons, hqid, Bool.false_or]
        · simp [hn]

/-- Lookup after `addNode`: the added id now has the new type, every
other id is unchanged. -/
theorem nodeLookup_addNode (ns : List (String × NodeType)) (id : String)
    (t : NodeType) (n : String) :
    nodeLookup (addNode ns id t) n
      = if n = id then some t else nodeLookup ns n := by
  unfold addNode nodeLookup
  by_cases hany : ns.any (fun p => p.1 = id)
  · rw [if_pos hany, find?_map_upd, hany]
    by_cases hn : n = id <;> simp [hn]
  · rw [if_neg hany, List.find?_append]
    by_cases hn : n = id
    · have hnone : ns.find? (fun p => p.1 = n) = none := by
        rw [List.find?_eq_none]
        intro x hx hc
        rw [decide_eq_true_eq] at hc
        exact hany (List.any_eq_true.mpr ⟨x, hx, by simp [hc, hn.symm]⟩)
      subst hn
      simp [hnone]
    · have hlast : List.find? (fun p => p.1 = n) [(id, t)] = none := by
        simp
        intro hc
        exact hn hc.symm
      rw [hlast]
      cases hf : ns.find? (fun p => p.1 = n) <;> simp [hn]

/-- Any node typed EventPoint after folding a row list either was typed
EventPoint before, or is the EventPoint id of one of the rows. -/
theorem foldBuild_nodes_event (l : List Event) :
    ∀ (st : BState) (n : String),
      nodeLookup (foldBuild l st).nodes n = some NodeType.EventPoint →
      nodeLookup st.nodes n = some NodeType.EventPoint ∨
        ∃ ev ∈ l, ev.event_point = n := by
  induction l with
  | nil => intro st n h; exact Or.inl h
  | cons ev l ih =>
    intro st n h
    rcases ih (buildStep st ev) n h with h1 | ⟨ev', hm, he⟩
    · rw [buildStep_nodes] at h1
      by_cases hc : (pubMatch ev.message || conMatch ev.message) = true
      · rw [if_pos hc, nodeLookup_addNode] at h1
        by_cases hqn : n = QUEUE_NAME
        · rw [if_pos hqn] at h1
          simp at h1
        · rw [if_neg hqn, nodeLookup_addNode] at h1
          by_cases hep : n = ev.event_point
          · exact Or.inr ⟨ev, List.mem_cons_self _ _, hep.symm⟩
          · rw [if_neg hep, nodeLookup_addNode] at h1
            by_cases hdid : n = ev.corr_key
            · rw [if_pos hdid] at h1
              simp at h1
            · rw [if_neg hdid] at h1
              exact Or.inl h1
      · rw [if_neg hc, nodeLookup_addNode] at h1
        by_cases hep : n = ev.event_point
        · exact Or.inr ⟨ev, List.mem_cons_self _ _, hep.symm⟩
        · rw [if_neg hep, nodeLookup_addNode] at h1
          by_cases hdid : n = ev.corr_key
          · rw [if_pos hdid] at h1
            simp at h1
          · rw [if_neg hdid] at h1
            exact Or.inl h1
    · exact Or.inr ⟨ev', List.mem_cons_of_mem _ hm, he⟩

/-- The PROCESSED edges out of a node id accumulated by the fold are the
initial ones followed by one per row whose EventPoint id is that node. -/
theorem foldBuild_edges_proc (l : List Event) :
    ∀ (st : BState) (n : String),
      (foldBuild l st).edges.filter (fun e => e.rel = Rel.PROCESSED && e.src = n)
        = st.edges.filter (fun e => e.rel = Rel.PROCESSED && e.src = n)
          ++ (l.filter (fun ev => ev.event_point = n)).map procEdge := by
  induction l with
  | nil => intro st n; simp [foldBuild]
  | cons ev l ih =>
    intro st n
    have hstep : (foldBuild (ev :: l) st).edges.filter
        (fun e => e.rel = Rel.PROCESSED && e.src = n)
        = (buildStep st ev).edges.filter
            (fun e => e.rel = Rel.PROCESSED && e.src = n)
          ++ (l.filter (fun ev => ev.event_point = n)).map procEdge := ih _ n
    rw [hstep, buildStep_edges, List.filter_append, List.filter_cons]
    have htail : (hopEdges st ev ++ precEdges st ev).filter
        (fun e => e.rel = Rel.PROCESSED && e.src = n) = [] := by
      rw [List.filter_eq_nil_iff]
      intro e he
      rcases List.mem_append.mp he with hh | hh
      · simp [hopEdges_not_processed st ev e hh]
      · simp [precEdges_not_processed st ev e hh]
    rw [htail, List.filter_cons]
    by_cases hev : ev.event_point = n
    · have hcond : ((procEdge ev).rel = Rel.PROCESSED && (procEdge ev).src = n)
          = true := by
        simp [procEdge, hev]
      rw [if_pos hcond, if_pos (by simp [hev])]
      simp
    · have hcond : ((procEdge ev).rel = Rel.PROCESSED && (procEdge ev).src = n)
          = false := by
        simp [procEdge, hev]
      rw [if_neg (by simp [hcond]), if_neg (by simp [hev])]
      simp

/-- In a row list with pairwise-distinct EventPoint ids, filtering for
one member's id yields exactly that member. -/
theorem filter_eid_of_pairwise (l : List Event)
    (h : l.Pairwise (fun a b => a.event_point ≠ b.event_point)) (ev : Event)
    (hev : ev ∈ l) :
    l.filter (fun x => x.event_point = ev.event_point) = [ev] := by
  induction l with
  | nil => cases hev
  | cons x xs ih =>
    rw [List.pairwise_cons] at h
    rcases List.mem_cons.mp hev with h1 | h1
    · subst h1
      rw [List.filter_cons, if_pos (by simp)]
      have hnil : xs.filter (fun y => y.event_point = ev.event_point) = [] := by
        rw [List.filter_eq_nil_iff]
        intro y hy
        simp
        intro hc
        exact (h.1 y hy) hc.symm
      rw [hnil]
    · have hcx : (decide (x.event_point = ev.event_point)) = false := by
        simp
        exact h.1 ev h1
      rw [List.filter_cons, hcx]
      simp only [Bool.false_eq_true, if_false]
      exact ih h.2 h1

/-- Dict read after a dict write. -/
theorem getMap_upd (m : List (String × String)) (k v n : String) :
    getMap (updMap m k v) n = if n = k then some v else getMap m n := by
  unfold getMap updMap
  rw [List.find?_cons]
  by_cases hn : n = k
  · subst hn
    simp
  · have : (decide ((k, v).1 = n)) = false := by
      simp
      intro hc
      exact hn hc.symm
    rw [this, if_neg hn]

/-- No string equals itself with `"@prev"` appended. -/
theorem append_prev_ne (k : String) : ¬(k ++ "@prev" = k) := by
  intro hc
  have hlen := congrArg String.length hc
  rw [String.length_append] at hlen
  simp at hlen
  exact absurd hlen (by decide)

/-- Once the dict records the Queue as a key's last hand-off, folding
rows none of which write that dict key through the `"@prev"` suffix keeps
it recorded (a consume never writes it, a publish rewrites the same
value). -/
theorem handoff_stable (l : List Event) :
    ∀ (st : BState) (k : String),
      (∀ ev ∈ l, ¬(ev.corr_key ++ "@prev" = k)) →
      getMap st.last_by_id k = some QUEUE_NAME →
      getMap (foldBuild l st).last_by_id k = some QUEUE_NAME := by
  induction l with
  | nil => intro st k _ hq; exact hq
  | cons ev l ih =>
    intro st k hk hq
    refine ih (buildStep st ev) k (fun x hx => hk x (List.mem_cons_of_mem _ hx)) ?_
    rw [buildStep_last, getMap_upd,
      if_neg (fun hc => hk ev (List.mem_cons_self _ _) hc.symm)]
    unfold lb2Of
    by_cases h1 : pubMatch ev.message
    · rw [if_pos h1, getMap_upd]
      by_cases hke : k = ev.corr_key
      · rw [if_pos hke]
      · rw [if_neg hke]
        exact hq
    · rw [if_neg h1]
      exact hq

/-- A publish-classified row records the Queue as its key's last
hand-off. -/
theorem pub_sets_handoff (st : BState) (pub : Event)
    (hpub : pubMatch pub.message = true) :
    getMap (buildStep st pub).last_by_id pub.corr_key = some QUEUE_NAME := by
  rw [buildStep_last, getMap_upd,
    if_neg (fun hc => append_prev_ne pub.corr_key hc.symm)]
  unfold lb2Of
  rw [if_pos hpub, getMap_upd, if_pos rfl]

/-- Appending a lag sample never empties the group dict. -/
theorem addLag_ne_nil (m : List (String × List ℚ)) (k : String) (v : ℚ) :
    addLag m k v ≠ [] := by
  unfold addLag
  split
  · intro h
    rw [List.map_eq_nil_iff] at h
    subst h
    simp at *
  · simp

/-- One scanner grouping step never empties a nonempty group dict. -/
theorem lagStep_ne_nil (m : List (String × List ℚ)) (e : Edge) (hm : m ≠ []) :
    lagStep m e ≠ [] := by
  unfold lagStep
  split
  · exact addLag_ne_nil m _ _
  · exact hm

/-- The scanner's grouping fold never empties a nonempty group dict. -/
theorem foldl_lagStep_ne_nil (l : List Edge) :
    ∀ m, m ≠ [] → List.foldl lagStep m l ≠ [] := by
  induction l with
  | nil => intro m hm; exact hm
  | cons e l ih => intro m hm; exact ih _ (lagStep_ne_nil m e hm)

/-- The group dict is empty iff no edge is a DELIVERED edge with truthy
lag. -/
theorem foldl_lagStep_nil_iff (l : List Edge) :
    List.foldl lagStep [] l = [] ↔
      ∀ e ∈ l, (e.rel = Rel.DELIVERED && lagTruthy e.lag) = false := by
  induction l with
  | nil => simp
  | cons e l ih =>
    by_cases hc : (e.rel = Rel.DELIVERED && lagTruthy e.lag) = true
    · have hstep : lagStep [] e ≠ [] := by
        unfold lagStep
        rw [hc]
        simp only [if_true]
        exact addLag_ne_nil [] _ _
      constructor
      · intro h
        exact absurd h (foldl_lagStep_ne_nil l _ hstep)
      · intro h
        have hfalse := h e (List.mem_cons_self e l)
        rw [hfalse] at hc
        exact absurd hc (by decide)
    · have hstep : lagStep [] e = [] := by
        unfold lagStep
        rw [Bool.not_eq_true] at hc
        rw [hc]
        simp
      rw [List.foldl_cons, hstep, ih]
      constructor
      · intro h
        intro x hx
        rcases List.mem_cons.mp hx with h1 | h2
        · subst h1; exact Bool.not_eq_true _ ▸ hc
        · exact h x h2
      · intro h x hx
        exact h x (List.mem_cons_of_mem e hx)

/-- The max fold keeps an element of the list. -/
theorem foldBetter_mem (xs : List (String × List ℚ)) (x : String × List ℚ) :
    xs.foldl betterGroup x ∈ x :: xs := by
  induction xs generalizing x with
  | nil => simp
  | cons z zs ih =>
    rw [List.foldl_cons]
    rcases List.mem_cons.mp (ih (betterGroup x z)) with h | h
    · rw [h]
      unfold betterGroup
      split <;> simp
    · simp [h]

/-- The kept element's median dominates every element of the list. -/
theorem foldBetter_ge (xs : List (String × List ℚ)) :
    ∀ (x y : String × List ℚ), y ∈ x :: xs →
      median y.2 ≤ median (xs.foldl betterGroup x).2 := by
  induction xs with
  | nil =>
    intro x y hy
    rw [List.mem_singleton] at hy
    subst hy
    simp
  | cons z zs ih =>
    intro x y hy
    rw [List.foldl_cons]
    have hstart : median x.2 ≤ median (betterGroup x z).2 ∧
        median z.2 ≤ median (betterGroup x z).2 := by
      unfold betterGroup
      split
      · exact ⟨le_of_lt (by assumption), le_refl _⟩
      · exact ⟨le_refl _, le_of_not_lt (by assumption)⟩
    have hbest := ih (betterGroup x z) (betterGroup x z) (List.mem_cons_self _ _)
    rcases List.mem_cons.mp hy with h1 | h1
    · subst h1
      exact le_trans hstart.1 hbest
    rcases List.mem_cons.mp h1 with h2 | h2
    · subst h2
      exact le_trans hstart.2 hbest
    · exact ih _ y (List.mem_cons_of_mem _ h2)

/-- C2 amended. The bottleneck is reported as none exactly when no
DELIVERED edge carries a truthy lag (in Python's sense: a lag of 0 or
`None` or an absent or empty-string lag does not count); otherwise the
reported group is one of the endpoint-pair groups and its median lag is
maximal among all groups. -/
theorem C2_amended_bottleneck (G : Graph) :
    ((scan G).bottleneck = none ↔
      ∀ e ∈ G.edges, (e.rel = Rel.DELIVERED && lagTruthy e.lag) = false) ∧
    ∀ b, (scan G).bottleneck = some b →
      b ∈ lagsOf G ∧ ∀ p ∈ lagsOf G, median p.2 ≤ median b.2 := by
  have hscan : (scan G).bottleneck = maxByMedian (lagsOf G) := rfl
  constructor
  · rw [hscan]
    cases hl : lagsOf G with
    | nil =>
      simp only [maxByMedian, true_iff]
      exact (foldl_lagStep_nil_iff G.edges).mp hl
    | cons x xs =>
      simp only [maxByMedian]
      constructor
      · intro h
        exact absurd h (by simp)
      · intro h
        have : lagsOf G = [] := (foldl_lagStep_nil_iff G.edges).mpr h
        rw [hl] at this
        exact absurd this (by simp)
  · intro b hb
    rw [hscan] at hb
    cases hl : lagsOf G with
    | nil =>
      rw [hl] at hb
      exact absurd hb (by simp [maxByMedian])
    | cons x xs =>
      rw [hl] at hb
      simp only [maxByMedian, Option.some.injEq] at hb
      subst hb
      constructor
      · exact foldBetter_mem xs x
      · intro p hp
        exact foldBetter_ge xs x p hp

/-- C2 witness: on the one-delivered-edge graph of lag 2, the reported
bottleneck group is a group of the dict. -/
theorem C2_amended_bottleneck_witness :
    ("q->e", [(2 : ℚ)]) ∈ lagsOf gLagTwo :=
  ((C2_amended_bottleneck gLagTwo).2 ("q->e", [(2 : ℚ)]) (by decide)).1

/-- C3 amended. A DataInstance `d` is listed as lost iff some EventPoint
with an edge into `d` (of any relation, not only PROCESSED) has an
outgoing PUBLISHED edge to a Queue node, and no EventPoint with an edge
into `d` (edges going out of `d` do not count) has an incoming DELIVERED
edge from a Queue node. -/
theorem C3_amended_lost (G : Graph) (d : String) :
    d ∈ (scan G).lost ↔
      ((d, NodeType.DataInstance) ∈ G.nodes ∧
       (∃ e ∈ G.edges, e.tgt = d ∧ nodeTypeOf G e.src = some NodeType.EventPoint ∧
         ∃ o ∈ G.edges, o.src = e.src ∧ nodeTypeOf G o.tgt = some NodeType.Queue ∧
           o.rel = Rel.PUBLISHED) ∧
       ¬(∃ e ∈ G.edges, e.tgt = d ∧ nodeTypeOf G e.src = some NodeType.EventPoint ∧
         ∃ i ∈ G.edges, i.tgt = e.src ∧ nodeTypeOf G i.src = some NodeType.Queue ∧
           i.rel = Rel.DELIVERED)) := by
  show d ∈ lostList G ↔ _
  rw [lostList, List.mem_filter, List.mem_map]
  simp only [List.mem_filter, isLost, Bool.and_eq_true, List.any_eq_true,
    decide_eq_true_eq, Bool.not_eq_true', Bool.not_eq_true, List.any_eq_false]
  constructor
  · rintro ⟨⟨p, ⟨hpmem, hpd⟩, hp1⟩, hpub, hcon⟩
    refine ⟨?_, ?_, ?_⟩
    · have hpe : (d, NodeType.DataInstance) = p := by rw [← hp1, ← hpd]
      rw [hpe]
      exact hpmem
    · obtain ⟨e, he, ⟨h1, h2⟩, o, ho, ⟨h3, h4⟩, h5⟩ := hpub
      exact ⟨e, he, h1, h2, o, ho, h3, h4, h5⟩
    · rintro ⟨e, he, h1, h2, i, hi, h3, h4, h5⟩
      exact hcon e he ⟨⟨h1, h2⟩, i, hi, ⟨h3, h4⟩, h5⟩
  · rintro ⟨hnode, ⟨e, he, h1, h2, o, ho, h3, h4, h5⟩, hcon⟩
    refine ⟨⟨(d, NodeType.DataInstance), ⟨hnode, rfl⟩, rfl⟩,
      ⟨e, he, ⟨h1, h2⟩, o, ho, ⟨h3, h4⟩, h5⟩, ?_⟩
    intro x hx
    rintro ⟨⟨h1x, h2x⟩, i, hi, ⟨h3x, h4x⟩, h5x⟩
    exact hcon ⟨x, hx, h1x, h2x, i, hi, h3x, h4x, h5x⟩

/-- C3 witness: on the processed-and-published-but-never-delivered graph,
the amended characterisation yields membership in the lost list. -/
theorem C3_amended_lost_witness : "d" ∈ (scan gLostOne).lost :=
  (C3_amended_lost gLostOne "d").2 (by decide)

/-- C4. For a well-formed input — pairwise-distinct EventPoint ids, as
the spec requires of a single run — every node typed EventPoint in the
built graph is the EventPoint id of exactly one input row, and the edges
with relation PROCESSED leaving it are exactly one, pointing at that
row's correlation key (the DataInstance that produced it). -/
theorem C4_processed_edges (evs : List Event)
    (h : evs.Pairwise (fun a b => a.event_point ≠ b.event_point)) (n : String)
    (hn : nodeTypeOf (buildGraph evs) n = some NodeType.EventPoint) :
    ∃ ev ∈ evs, ev.event_point = n ∧
      (buildGraph evs).edges.filter (fun e => e.rel = Rel.PROCESSED && e.src = n)
        = [⟨n, ev.corr_key, Rel.PROCESSED, LagAttr.absent, some ev.timestamp⟩] := by
  have hperm := List.perm_insertionSort tsLe evs
  have hpl : (List.insertionSort tsLe evs).Pairwise
      (fun a b => a.event_point ≠ b.event_point) :=
    (hperm.pairwise_iff (fun hxy => hxy.symm)).mpr h
  have hn' : nodeLookup
      (foldBuild (List.insertionSort tsLe evs) ⟨[], [], []⟩).nodes n
      = some NodeType.EventPoint := hn
  rcases foldBuild_nodes_event _ _ _ hn' with h1 | ⟨ev, hm, he⟩
  · exact absurd h1 (by simp [nodeLookup])
  · subst he
    refine ⟨ev, hperm.mem_iff.mp hm, rfl, ?_⟩
    have hfil := foldBuild_edges_proc (List.insertionSort tsLe evs) ⟨[], [], []⟩
      ev.event_point
    have hsing := filter_eid_of_pairwise _ hpl ev hm
    show (foldBuild (List.insertionSort tsLe evs) ⟨[], [], []⟩).edges.filter
        (fun e => e.rel = Rel.PROCESSED && e.src = ev.event_point)
        = [⟨ev.event_point, ev.corr_key, Rel.PROCESSED, LagAttr.absent,
            some ev.timestamp⟩]
    rw [hfil, hsing]
    simp [procEdge]

/-- C4 witness: on the two-event publish/consume input the EventPoint
node `E1` has exactly one PROCESSED edge, to `k1`. -/
theorem C4_processed_edges_witness :
    ∃ ev ∈ [evQ1, evQ2], ev.event_point = "E1" ∧
      (buildGraph [evQ1, evQ2]).edges.filter
          (fun e => e.rel = Rel.PROCESSED && e.src = "E1")
        = [⟨"E1", ev.corr_key, Rel.PROCESSED, LagAttr.absent, some ev.timestamp⟩] :=
  C4_processed_edges [evQ1, evQ2] (by decide) "E1" (by decide)

/-- C6 amended. The builder sorts its input by timestamp ascending before
folding (`df.sort_values("timestamp")`), so sortedness is not a caller-side
precondition: pre-sorting the input never changes the built graph. -/
theorem C6_amended_sort_invariant (evs : List Event) :
    buildGraph (List.insertionSort tsLe evs) = buildGraph evs := by
  unfold buildGraph
  rw [insertionSort_tsLe_idem]

/-- C7. Every slow-hop entry comes from a DELIVERED edge and carries a lag
exceeding 1.0; every DELIVERED edge with a (numeric) lag exceeding 1.0
contributes its entry; and the list is sorted non-increasing by lag. -/
theorem C7_slow_hops (G : Graph) :
    (∀ h ∈ (scan G).slowHops,
        1 < h.2.2 ∧ ∃ e ∈ G.edges, e.rel = Rel.DELIVERED ∧ e.src = h.1 ∧
          e.tgt = h.2.1 ∧ edgeLag e.lag = h.2.2) ∧
    (∀ e ∈ G.edges, e.rel = Rel.DELIVERED → ∀ q : ℚ, e.lag = LagAttr.num q →
        1 < q → (e.src, e.tgt, q) ∈ (scan G).slowHops) ∧
    List.Sorted hopGe (scan G).slowHops := by
  refine ⟨?_, ?_, ?_⟩
  · intro h hmem
    have hm := (mem_slowHopsOf G h).mp hmem
    obtain ⟨e, he, hsome⟩ := hm
    have hc := (slowHopEntry_eq_some e h).mp hsome
    obtain ⟨hrel, -, hlt, hy⟩ := hc
    subst hy
    exact ⟨hlt, e, he, hrel, rfl, rfl, rfl⟩
  · intro e he hrel q hq hlt
    refine (mem_slowHopsOf G _).mpr ⟨e, he, ?_⟩
    refine (slowHopEntry_eq_some e _).mpr ⟨hrel, ?_, ?_, ?_⟩
    · rw [hq]
      simp [lagTruthy]
      exact (lt_trans zero_lt_one hlt).ne'
    · rw [hq]
      exact hlt
    · rw [hq]
      rfl
  · exact List.sorted_insertionSort hopGe _

/-- C7 witness: on the one-delivered-edge graph of lag 2, the entry
appears in the slow-hop list. -/
theorem C7_slow_hops_witness :
    ("q", "e", (2 : ℚ)) ∈ (scan gLagTwo).slowHops :=
  (C7_slow_hops gLagTwo).2.1 ⟨"q", "e", Rel.DELIVERED, LagAttr.num 2, none⟩
    (by decide) (by decide) 2 rfl (by decide)

/-- C9. A DELIVERED edge whose `lag` attribute is a string that does not
convert to a number is coerced to 0 by `_edge_lag` (the `ValueError` is
caught), yields no slow-hop candidate, and every entry the scan does
report still has lag above the threshold — the malformed edge is dropped,
not a failure. -/
theorem C9_malformed_lag (G : Graph) (e : Edge) (s : String) (he : e ∈ G.edges)
    (hrel : e.rel = Rel.DELIVERED) (hlag : e.lag = LagAttr.str s)
    (hbad : parseFloat s = none) :
    edgeLag e.lag = 0 ∧ slowHopEntry e = none ∧
      ∀ h ∈ (scan G).slowHops, 1 < h.2.2 := by
  have h0 : edgeLag e.lag = 0 := by
    rw [hlag]
    show (parseFloat s).getD 0 = 0
    rw [hbad]
    rfl
  refine ⟨h0, ?_, ?_⟩
  · unfold slowHopEntry
    rw [h0]
    by_cases hc : e.rel = Rel.DELIVERED && lagTruthy e.lag <;> simp [hc]
  · intro h hmem
    obtain ⟨e', -, hsome⟩ := (mem_slowHopsOf G h).mp hmem
    obtain ⟨-, -, hlt, hy⟩ := (slowHopEntry_eq_some e' h).mp hsome
    subst hy
    exact hlt

/-- C9 witness: the concrete malformed-lag edge evaluates to lag 0 and no
slow-hop candidate. -/
theorem C9_malformed_lag_witness :
    edgeLag (LagAttr.str "oops") = 0 ∧
      slowHopEntry ⟨"q", "e", Rel.DELIVERED, LagAttr.str "oops", none⟩ = none :=
  ⟨(C9_malformed_lag gBadLag ⟨"q", "e", Rel.DELIVERED, LagAttr.str "oops", none⟩
      "oops" (by decide) rfl rfl (by decide)).1,
   (C9_malformed_lag gBadLag ⟨"q", "e", Rel.DELIVERED, LagAttr.str "oops", none⟩
      "oops" (by decide) rfl rfl (by decide)).2.1⟩

/-- C10 amended. Provided no row's correlation key followed by `"@prev"`
coincides with the key `k` (the builder stores timeline state in the same
dict under that suffixed key, so such a collision can clear the hand-off
state — see the counterexample), the hand-off state set by a publish for
`k` is never cleared: a later consume-classified row for `k` gets a
DELIVERED edge whose lag is present — the number 0, per the lag defect —
not null. -/
theorem C10_amended_handoff (l1 l2 : List Event) (pub con : Event) (k : String)
    (st0 : BState)
    (hl2 : ∀ ev ∈ l2, ¬(ev.corr_key ++ "@prev" = k))
    (hpubk : pub.corr_key = k) (hpub : pubMatch pub.message = true)
    (hconk : con.corr_key = k) (hcon : conMatch con.message = true)
    (hconp : pubMatch con.message = false) :
    ∃ tail,
      (foldBuild ((l1 ++ pub :: l2) ++ [con]) st0).edges
        = (foldBuild (l1 ++ pub :: l2) st0).edges
          ++ procEdge con
          :: ⟨QUEUE_NAME, con.event_point, Rel.DELIVERED, LagAttr.num 0,
              some con.timestamp⟩ :: tail := by
  have hsplit : foldBuild ((l1 ++ pub :: l2) ++ [con]) st0
      = buildStep (foldBuild (l1 ++ pub :: l2) st0) con := by
    unfold foldBuild
    rw [List.foldl_append]
    rfl
  have hmid : getMap (foldBuild (l1 ++ pub :: l2) st0).last_by_id k
      = some QUEUE_NAME := by
    have hm2 : foldBuild (l1 ++ pub :: l2) st0
        = foldBuild l2 (buildStep (foldBuild l1 st0) pub) := by
      unfold foldBuild
      rw [List.foldl_append]
      rfl
    rw [hm2]
    refine handoff_stable l2 _ k hl2 ?_
    rw [← hpubk]
    exact pub_sets_handoff (foldBuild l1 st0) pub hpub
  rw [hsplit, buildStep_edges]
  have hhop : hopEdges (foldBuild (l1 ++ pub :: l2) st0) con
      = [⟨QUEUE_NAME, con.event_point, Rel.DELIVERED, LagAttr.num 0,
          some con.timestamp⟩] := by
    unfold hopEdges
    rw [if_neg (by simp [hconp]), if_pos hcon, hconk, if_pos hmid]
    simp
  rw [hhop]
  exact ⟨precEdges (foldBuild (l1 ++ pub :: l2) st0) con, rfl⟩

/-- C10 witness: a publish for `k1` followed by a consume for `k1` (no
collision) yields a DELIVERED edge with the present lag 0. -/
theorem C10_amended_handoff_witness :
    ∃ tail,
      (foldBuild (([] ++ evQ1 :: []) ++ [evQ2]) ⟨[], [], []⟩).edges
        = (foldBuild ([] ++ evQ1 :: []) ⟨[], [], []⟩).edges
          ++ procEdge evQ2
          :: ⟨QUEUE_NAME, evQ2.event_point, Rel.DELIVERED, LagAttr.num 0,
              some evQ2.timestamp⟩ :: tail :=
  C10_amended_handoff [] [] evQ1 evQ2 "k1" ⟨[], [], []⟩ (by simp)
    rfl (by decide) rfl (by decide) (by decide)

end ML
